import Mathlib

/-!
Shallow embedding of the token issuance / verification / revocation core of
the block-verify repository, together with theorems settling the frozen
claims about it.

Conventions of the embedding:
* bytes are `Nat` values (byte strings are `List Nat`); 32-bit words are
  `Nat` reduced modulo `2 ^ 32` wherever the source's arithmetic wraps;
* SHA-256 (`hashlib.sha256`) is implemented executably, so concrete Merkle
  roots can be evaluated inside proofs;
* the Ed25519 signature produced by `jwcrypto` is modelled symbolically: a
  signature is the term `SigVal.ed25519 key msg`, and signature verification
  is recompute-and-compare, which is faithful to deterministic Ed25519
  signing up to the (idealised) unforgeability of the scheme;
* stateful endpoint handlers become pure functions over an explicit state
  record; database tables become lists of rows.
-/

set_option maxRecDepth 100000

namespace BlockVerify

/-! ## Bytes and SHA-256 (`hashlib.sha256`) -/

/-- Bytes of a Python `str` under its UTF-8/ASCII encoding (`s.encode()`);
all strings appearing in this development are ASCII. -/
def strBytes (s : String) : List Nat := s.data.map Char.toNat

/-- Truncation to a 32-bit word. -/
def w32 (x : Nat) : Nat := x % 4294967296

/-- Right rotation of a 32-bit word. -/
def rotr (n x : Nat) : Nat := (x >>> n) ||| w32 (x <<< (32 - n))

def ch (x y z : Nat) : Nat := (x &&& y) ^^^ ((x ^^^ 4294967295) &&& z)

def maj (x y z : Nat) : Nat := (x &&& y) ^^^ (x &&& z) ^^^ (y &&& z)

def bigSigma0 (x : Nat) : Nat := rotr 2 x ^^^ rotr 13 x ^^^ rotr 22 x

def bigSigma1 (x : Nat) : Nat := rotr 6 x ^^^ rotr 11 x ^^^ rotr 25 x

def smallSigma0 (x : Nat) : Nat := rotr 7 x ^^^ rotr 18 x ^^^ (x >>> 3)

def smallSigma1 (x : Nat) : Nat := rotr 17 x ^^^ rotr 19 x ^^^ (x >>> 10)

/-- The 64 SHA-256 round constants of FIPS 180-4, written in decimal. -/
def sha256K : List Nat :=
  [1116352408, 1899447441, 3049323471, 3921009573, 961987163, 1508970993,
   2453635748, 2870763221, 3624381080, 310598401, 607225278, 1426881987,
   1925078388, 2162078206, 2614888103, 3248222580, 3835390401, 4022224774,
   264347078, 604807628, 770255983, 1249150122, 1555081692, 1996064986,
   2554220882, 2821834349, 2952996808, 3210313671, 3336571891, 3584528711,
   113926993, 338241895, 666307205, 773529912, 1294757372, 1396182291,
   1695183700, 1986661051, 2177026350, 2456956037, 2730485921, 2820302411,
   3259730800, 3345764771, 3516065817, 3600352804, 4094571909, 275423344,
   430227734, 506948616, 659060556, 883997877, 958139571, 1322822218,
   1537002063, 1747873779, 1955562222, 2024104815, 2227730452, 2361852424,
   2428436474, 2756734187, 3204031479, 3329325298]

/-- The eight SHA-256 initial hash values of FIPS 180-4, written in decimal. -/
def sha256H0 : List Nat :=
  [1779033703, 3144134277, 1013904242, 2773480762,
   1359893119, 2600822924, 528734635, 1541459225]

/-- Big-endian 4-byte encoding of a 32-bit word. -/
def be32 (n : Nat) : List Nat :=
  [(n >>> 24) &&& 255, (n >>> 16) &&& 255, (n >>> 8) &&& 255, n &&& 255]

/-- Big-endian 8-byte encoding of a 64-bit length field. -/
def be64 (n : Nat) : List Nat :=
  [(n >>> 56) &&& 255, (n >>> 48) &&& 255, (n >>> 40) &&& 255,
   (n >>> 32) &&& 255, (n >>> 24) &&& 255, (n >>> 16) &&& 255,
   (n >>> 8) &&& 255, n &&& 255]

/-- SHA-256 message padding: one `0x80` byte, zeros to 56 mod 64, then the
bit length as a big-endian 64-bit field. -/
def padMessage (msg : List Nat) : List Nat :=
  msg ++ 0x80 :: List.replicate ((119 - msg.length % 64) % 64) 0 ++ be64 (8 * msg.length)

/-- Parse a block into big-endian 32-bit words, four bytes at a time. -/
def toWords : List Nat → List Nat
  | a :: b :: c :: d :: rest => ((a <<< 24) ||| (b <<< 16) ||| (c <<< 8) ||| d) :: toWords rest
  | _ => []

/-- Extend the 16 block words to the 64-entry message schedule. -/
def buildSchedule (w16 : List Nat) : List Nat :=
  (List.range 48).foldl
    (fun w _ =>
      w ++ [w32 (smallSigma1 (w.getD (w.length - 2) 0) + w.getD (w.length - 7) 0 +
                 smallSigma0 (w.getD (w.length - 15) 0) + w.getD (w.length - 16) 0)])
    w16

/-- The eight working variables of the SHA-256 compression loop. -/
structure Hs where
  a : Nat
  b : Nat
  c : Nat
  d : Nat
  e : Nat
  f : Nat
  g : Nat
  h : Nat

/-- One round of the SHA-256 compression loop, consuming one (constant,
schedule word) pair. -/
def compressStep (st : Hs) (kw : Nat × Nat) : Hs :=
  let t1 := w32 (st.h + bigSigma1 st.e + ch st.e st.f st.g + kw.1 + kw.2)
  let t2 := w32 (bigSigma0 st.a + maj st.a st.b st.c)
  ⟨w32 (t1 + t2), st.a, st.b, st.c, w32 (st.d + t1), st.e, st.f, st.g⟩

/-- SHA-256 compression of one 64-byte block into the running hash state. -/
def compressBlock (h : List Nat) (block : List Nat) : List Nat :=
  let ws := buildSchedule (toWords block)
  let st0 : Hs := ⟨h.getD 0 0, h.getD 1 0, h.getD 2 0, h.getD 3 0,
                   h.getD 4 0, h.getD 5 0, h.getD 6 0, h.getD 7 0⟩
  let st := (sha256K.zip ws).foldl compressStep st0
  [w32 (h.getD 0 0 + st.a), w32 (h.getD 1 0 + st.b), w32 (h.getD 2 0 + st.c),
   w32 (h.getD 3 0 + st.d), w32 (h.getD 4 0 + st.e), w32 (h.getD 5 0 + st.f),
   w32 (h.getD 6 0 + st.g), w32 (h.getD 7 0 + st.h)]

/-- Split a byte list into 64-byte chunks; the fuel argument (any value at
least the list length) makes the recursion structural. -/
def chunks64 : Nat → List Nat → List (List Nat)
  | 0, _ => []
  | _, [] => []
  | fuel + 1, l => l.take 64 :: chunks64 fuel (l.drop 64)

/-- SHA-256 of a byte string, as a 32-byte digest (`hashlib.sha256(m).digest()`). -/
def sha256 (msg : List Nat) : List Nat :=
  let padded := padMessage msg
  ((chunks64 padded.length padded).foldl compressBlock sha256H0).map be32 |>.flatten

/-! ## Merkle roots

`jobs.py::_merkle_root` and `revocation.py::MerkleTree` both fold a level of
digests bottom-up, hashing adjacent pairs and hashing an unpaired last node
with itself, until one node remains; the empty set maps to 32 zero bytes.
-/

/-- The all-zero 32-byte sentinel (`b"\x00" * 32`). -/
def zeros32 : List Nat := List.replicate 32 0

/-- One level of the bottom-up fold: hash adjacent pairs, duplicating an
unpaired last node (`right = level[i+1] if i+1 < len(level) else left`, and
equivalently the odd-length `level.append(level[-1])` of `jobs.py`). -/
def foldPairs : List (List Nat) → List (List Nat)
  | [] => []
  | [x] => [sha256 (x ++ x)]
  | x :: y :: rest => sha256 (x ++ y) :: foldPairs rest

/-- The `while len(level) > 1` loop, with a structural fuel argument (the
initial level length suffices, since each fold at least halves a level of
length two or more). -/
def buildLevels : Nat → List (List Nat) → List (List Nat)
  | 0, level => level
  | _ + 1, [] => []
  | _ + 1, [x] => [x]
  | fuel + 1, x :: y :: rest => buildLevels fuel (foldPairs (x :: y :: rest))

/-- Root extraction shared by both source variants: run the level fold over
the leaf digests and take the remaining node, with the empty tree mapped to
the all-zero sentinel. -/
def levelRoot (leaves : List (List Nat)) : List Nat :=
  match buildLevels leaves.length leaves with
  | r :: _ => r
  | [] => zeros32

/-- `jobs.py::_merkle_root`: leaves are raw 32-byte hashes; each is SHA-256'd
once and the level fold is run; the empty list returns the zero sentinel. -/
def merkle_root (leaves : List (List Nat)) : List Nat :=
  match leaves with
  | [] => zeros32
  | l => levelRoot (l.map sha256)

/-- `revocation.py::MerkleTree.__init__`: leaves are the SHA-256 digests of
the token-hash *strings* (`sha256(leaf.encode()).digest()`), in list order
(no sorting). -/
def mtLeaves (hashes : List String) : List (List Nat) :=
  hashes.map (fun s => sha256 (strBytes s))

/-- `revocation.py::MerkleTree.root`: `tree[-1][0]` of the level fold, or 32
zero bytes when the leaf list is empty. -/
def mt_root (hashes : List String) : List Nat :=
  match mtLeaves hashes with
  | [] => zeros32
  | l => levelRoot l

/-- `jobs.py::update_revocation_root`'s root computation:
`_merkle_root(sorted(leaves))` — the leaves are sorted (lexicographic byte
order, `List.insertionSort` here standing for Python's `sorted`) before the
tree is built. -/
def update_root (leaves : List (List Nat)) : List Nat :=
  merkle_root (List.insertionSort (· ≤ ·) leaves)

/-! ## Base64url (`jwcrypto.common.base64url_encode` / `base64url_decode`)

Encoding emits the unpadded URL-safe alphabet. Decoding is Python's lenient
pipeline, modelled byte for byte: `jwcrypto.common.base64url_decode` checks
the raw segment length mod 4 (1 is an error) and appends `=` padding to a
multiple of 4, then `base64.urlsafe_b64decode` translates `-`/`_` to
`+`/`/` and calls `binascii.a2b_base64` in non-strict mode — an automaton
that accepts `+` and `/` as data, silently discards every other byte
outside the standard alphabet, treats `=` as a padding terminator once a
quad holds at least two data characters (ignoring whatever follows), and
errors only when the input ends inside a quad.
-/

/-- Character for a 6-bit value. -/
def encChar (v : Nat) : Nat :=
  if v < 26 then v + 65
  else if v < 52 then v - 26 + 97
  else if v < 62 then v - 52 + 48
  else if v == 62 then 45
  else 95

/-- Unpadded base64url encoding of a byte string: each three-byte group
becomes four 6-bit values (written in div/mod form, equal on bytes to the
usual shift-and-mask form), a trailing group of one or two bytes becomes two
or three characters. -/
def b64urlEncode : List Nat → List Nat
  | [] => []
  | [a] => [encChar (a / 4), encChar (a % 4 * 16)]
  | [a, b] => [encChar (a / 4), encChar (a % 4 * 16 + b / 16), encChar (b % 16 * 4)]
  | a :: b :: c :: rest =>
      encChar (a / 4) :: encChar (a % 4 * 16 + b / 16) ::
      encChar (b % 16 * 4 + c / 64) :: encChar (c % 64) :: b64urlEncode rest

/-- Value of a standard-alphabet base64 character (`A-Z a-z 0-9 + /`),
`none` for anything else — `binascii`'s `table_a2b_base64` lookup. -/
def stdDecChar (c : Nat) : Option Nat :=
  if 65 ≤ c && c ≤ 90 then some (c - 65)
  else if 97 ≤ c && c ≤ 122 then some (c - 97 + 26)
  else if 48 ≤ c && c ≤ 57 then some (c - 48 + 52)
  else if c == 43 then some 62
  else if c == 47 then some 63
  else none

/-- `base64.urlsafe_b64decode`'s character translation: `-` to `+` and `_`
to `/`. -/
def urlsafeTranslate (c : Nat) : Nat :=
  if c == 45 then 43 else if c == 95 then 47 else c

/-- `binascii.a2b_base64` in non-strict mode: walk the bytes with the
current quad position, the pending bits of the last data character, and the
running pad count. A data character emits a byte at quad positions 1, 2 and
3 and resets the pad count; a byte outside the alphabet is discarded; `=`
past two data characters of a quad counts toward termination and, once the
quad is full, ends decoding successfully with the rest ignored; input
ending inside a quad is an error. -/
def a2bAux : List Nat → Nat → Nat → Nat → Option (List Nat)
  | [], qp, _, _ => if qp = 0 then some [] else none
  | c :: rest, qp, acc, pads =>
    if c = 61 then
      if 2 ≤ qp then
        if 4 ≤ qp + (pads + 1) then some []
        else a2bAux rest qp acc (pads + 1)
      else a2bAux rest qp acc pads
    else
      match stdDecChar (urlsafeTranslate c) with
      | none => a2bAux rest qp acc pads
      | some v =>
        if qp = 0 then a2bAux rest 1 v 0
        else if qp = 1 then
          (a2bAux rest 2 (v % 16) 0).map fun tail => (acc * 4 + v / 16) :: tail
        else if qp = 2 then
          (a2bAux rest 3 (v % 4) 0).map fun tail => (acc * 16 + v / 4) :: tail
        else (a2bAux rest 0 0 0).map fun tail => (acc * 64 + v) :: tail

/-- `jwcrypto.common.base64url_decode`: reject a raw length of 1 mod 4, pad
with `=` to a multiple of 4, and run the lenient decoder. -/
def b64urlDecode (s : List Nat) : Option (List Nat) :=
  if s.length % 4 = 2 then a2bAux (s ++ [61, 61]) 0 0 0
  else if s.length % 4 = 3 then a2bAux (s ++ [61]) 0 0 0
  else if s.length % 4 = 0 then a2bAux s 0 0 0
  else none

/-- The `=` padding `base64url_decode` appends to a canonical encoder
output, indexed by the byte string that was encoded: two bytes of padding
for a final group of one byte, one for a final group of two. -/
def b64pad : List Nat → List Nat
  | [] => []
  | [_] => [61, 61]
  | [_, _] => [61]
  | _ :: _ :: _ :: rest => b64pad rest

/-! ## The signed token (`token.py`, `jwcrypto.jwt`)

`mint` builds the claims dict `{"ageOver": 18, "device": ..., "iat": ...,
"exp": ...}` and signs it; `jwcrypto` serialises claims with
`json.dumps(..., separators=(',', ':'), sort_keys=True)`, hence the compact,
alphabetically-ordered rendering below (`ageOver`, `device`, `exp`, `iat`).
-/

/-- The claim set carried by a token. `device` is the byte string of the
device-hash value; timestamps are seconds. -/
structure JwtClaims where
  ageOver : Nat
  device : List Nat
  iat : Nat
  exp : Nat
deriving DecidableEq

/-- Little-endian decimal digits, with a structural fuel argument (any fuel
at least `n` suffices). -/
def natDigitsAux : Nat → Nat → List Nat
  | 0, _ => []
  | _ + 1, 0 => []
  | fuel + 1, n + 1 => (n + 1) % 10 :: natDigitsAux fuel ((n + 1) / 10)

/-- Little-endian decimal digits of a natural number. -/
def natDigits (n : Nat) : List Nat := natDigitsAux n n

/-- Decimal digit bytes of a natural number. -/
def natBytes (n : Nat) : List Nat :=
  if n = 0 then [48] else ((natDigits n).map (· + 48)).reverse

/-- The serialised claims JSON, compact separators, sorted keys. Faithful to
`json.dumps` for device strings made of printable ASCII without `"` or `\`
(no escaping is modelled). -/
def renderClaims (c : JwtClaims) : List Nat :=
  strBytes "\x7b\"ageOver\":" ++ natBytes c.ageOver ++
  strBytes ",\"device\":\"" ++ c.device ++
  strBytes "\",\"exp\":" ++ natBytes c.exp ++
  strBytes ",\"iat\":" ++ natBytes c.iat ++ strBytes "\x7d"

/-- The serialised protected header `{"alg":"EdDSA","kid":...}`; the key id
is rendered from the symbolic key value. -/
def renderHeader (key : Nat) : List Nat :=
  strBytes "\x7b\"alg\":\"EdDSA\",\"kid\":\"" ++ natBytes key ++ strBytes "\"\x7d"

/-- Consume an expected literal prefix. -/
def stripLit : List Nat → List Nat → Option (List Nat)
  | [], s => some s
  | _ :: _, [] => none
  | l :: ls, t :: ts => if t = l then stripLit ls ts else none

def isDigitByte (b : Nat) : Bool := 48 ≤ b && b ≤ 57

/-- Split a maximal run of leading decimal-digit bytes from the rest. -/
def takeDigits : List Nat → List Nat × List Nat
  | [] => ([], [])
  | b :: bs =>
    if isDigitByte b then
      let r := takeDigits bs
      (b :: r.1, r.2)
    else ([], b :: bs)

/-- Numeric value of a big-endian run of digit bytes. -/
def digitsVal (ds : List Nat) : Nat := Nat.ofDigits 10 ((ds.map (· - 48)).reverse)

/-- Parse a nonempty run of digits. -/
def parseNat (s : List Nat) : Option (Nat × List Nat) :=
  match takeDigits s with
  | ([], _) => none
  | (ds, rest) => some (digitsVal ds, rest)

/-- Take bytes up to (and consuming) the next `"` character. -/
def takeTillQuote : List Nat → Option (List Nat × List Nat)
  | [] => none
  | b :: bs =>
    if b = 34 then some ([], bs)
    else (takeTillQuote bs).bind fun r => some (b :: r.1, r.2)

/-- Parse of the claims JSON produced by `renderClaims` (`json.loads` on the
shape the issuer emits). -/
def parseClaims (s : List Nat) : Option JwtClaims :=
  (stripLit (strBytes "\x7b\"ageOver\":") s).bind fun s =>
  (parseNat s).bind fun p =>
  (stripLit (strBytes ",\"device\":\"") p.2).bind fun s =>
  (takeTillQuote s).bind fun q =>
  (stripLit (strBytes ",\"exp\":") q.2).bind fun s =>
  (parseNat s).bind fun pe =>
  (stripLit (strBytes ",\"iat\":") pe.2).bind fun s =>
  (parseNat s).bind fun pi =>
  (stripLit (strBytes "\x7d") pi.2).bind fun s =>
  if s = [] then some ⟨p.1, q.1, pi.1, pe.1⟩ else none

/-- Symbolic Ed25519 signature: the signature value over a signing input
under a key, as an opaque term. Recompute-and-compare verification of such
terms is the standard symbolic model of a deterministic signature scheme. -/
inductive SigVal where
  | ed25519 (key : Nat) (msg : List Nat)
deriving DecidableEq

/-- A compact-serialised JWS: the two base64url text segments, plus the
signature carried symbolically in place of the third segment. -/
structure SerializedToken where
  headerSeg : List Nat
  payloadSeg : List Nat
  sig : SigVal
deriving DecidableEq

/-- The JWS signing input: ASCII of `headerSeg ++ "." ++ payloadSeg`. -/
def signingInput (h p : List Nat) : List Nat := h ++ 46 :: p

/-- `TokenCodec.encode` (the `jwt.JWT(header, claims).make_signed_token`
path inside `token.py::mint`): base64url-encode header and claims, sign the
signing input. -/
def encode (key : Nat) (c : JwtClaims) : SerializedToken :=
  ⟨b64urlEncode (renderHeader key), b64urlEncode (renderClaims c),
   .ed25519 key (signingInput (b64urlEncode (renderHeader key))
     (b64urlEncode (renderClaims c)))⟩

/-- `token.py::mint`: claims are `ageOver = 18`, the given device hash,
`iat = now`, `exp = now + 365` days. -/
def mint (key now : Nat) (device_hash : List Nat) : SerializedToken :=
  encode key ⟨18, device_hash, now, now + 31536000⟩

/-- Outcome of `jwt.JWT(key=key, jwt=token)` followed by claims parsing:
`malformed` for deserialisation failures, `sigInvalid` for a signature
mismatch, `ok` with the claims otherwise. -/
inductive DecodeResult where
  | malformed
  | sigInvalid
  | ok (c : JwtClaims)
deriving DecidableEq

/-- `TokenCodec.decode_and_verify`: base64url-decode the segments (failures
surface before the signature is checked, as in `jwcrypto`'s deserialise),
then check the embedded signature against the signing input that
`jwcrypto`'s `JWSCore` rebuilds by *re-encoding* the decoded header and
payload bytes — so a non-canonical segment that decodes to the signed bytes
still verifies — and finally parse the claims JSON. No expiry or revocation
policy is applied here. -/
def decodeAndVerify (key : Nat) (t : SerializedToken) : DecodeResult :=
  match b64urlDecode t.headerSeg with
  | none => .malformed
  | some dh =>
    match b64urlDecode t.payloadSeg with
    | none => .malformed
    | some payload =>
      if t.sig = SigVal.ed25519 key (signingInput (b64urlEncode dh) (b64urlEncode payload)) then
        match parseClaims payload with
        | some c => .ok c
        | none => .malformed
      else .sigInvalid

/-- Typed failure reasons of `token.py::verify`. -/
inductive TokenError where
  | expired
  | malformed
  | signatureInvalid
deriving DecidableEq

/-- Result of `token.py::verify`: the returned payload dict on success, a
typed error otherwise. -/
inductive VerifyOutcome where
  | valid (age : Nat) (device : List Nat) (iat : Nat) (exp : Nat)
  | invalid (e : TokenError)
deriving DecidableEq

/-- `token.py::verify`: decode and signature-check the token, then reject
with `"Token expired"` iff `claims["exp"] < now`; on success return the
payload `{age, device_id, issued_at, expires_at}`. -/
def tokenVerify (now key : Nat) (t : SerializedToken) : VerifyOutcome :=
  match decodeAndVerify key t with
  | .ok c => if c.exp < now then .invalid .expired else .valid c.ageOver c.device c.iat c.exp
  | .malformed => .invalid .malformed
  | .sigInvalid => .invalid .signatureInvalid

/-! ## The backend verify endpoint (`verify.py`) and revocation state
(`revocation.py`) -/

/-- State visible to `verify.py::verify_token`: whether the presented API key
matches an active verifier row, the thumbprint published on the trust anchor
(`none` models an unreachable anchor, whose read raises), the local issuer
key's thumbprint, and the `Revoked` table's `token_hash` column. -/
structure VerifyCtx where
  verifierActive : Bool
  anchorThumbprint : Option (List Nat)
  localThumbprint : List Nat
  revokedHashes : List String
deriving DecidableEq

/-- `verify.py::verify_thumbprint_integrity`: the on-chain thumbprint equals
the local one; any exception (anchor unreachable) yields `False`. -/
def verify_thumbprint_integrity (ctx : VerifyCtx) : Bool :=
  match ctx.anchorThumbprint with
  | none => false
  | some t => t = ctx.localThumbprint

/-- The HTTP rejections `verify.py::verify_token` can raise, in source
order: 403 invalid/inactive API key, 500 key-integrity failure, 400 invalid
token, 400 expired token. -/
inductive EndpointError where
  | invalidApiKey
  | trustIntegrityFailure
  | invalidToken
  | expiredToken
deriving DecidableEq

/-- Result of the `verify.py` endpoint. -/
inductive EndpointResult where
  | ok (c : JwtClaims)
  | error (e : EndpointError)
deriving DecidableEq

/-- `verify.py::verify_token`: check the API key, then thumbprint integrity
against the anchor, then JWT signature, then `time.time() > exp`. The
`Revoked` table is never consulted. -/
def verify_token_endpoint (ctx : VerifyCtx) (now key : Nat) (t : SerializedToken) :
    EndpointResult :=
  if !ctx.verifierActive then .error .invalidApiKey
  else if !verify_thumbprint_integrity ctx then .error .trustIntegrityFailure
  else
    match decodeAndVerify key t with
    | .ok c => if c.exp < now then .error .expiredToken else .ok c
    | _ => .error .invalidToken

/-- `revocation.py::check_revocation_status`: membership of the hash in the
`Revoked` table. -/
def is_revoked (ctx : VerifyCtx) (token_hash : String) : Bool :=
  token_hash ∈ ctx.revokedHashes

/-- The database effect of `revocation.py::revoke_token`: unconditionally
insert a new `Revoked` row (the table's primary key is an auto-increment id;
`token_hash` carries no uniqueness constraint). -/
def add_revoked (ctx : VerifyCtx) (token_hash : String) : VerifyCtx :=
  { ctx with revokedHashes := ctx.revokedHashes ++ [token_hash] }

/-! ## The `simple_api.py` verify endpoint -/

/-- Module state of `simple_api.py`: `REVOKED_TOKENS`, `REVOKED_DEVICES`,
`CURRENT_TOKEN_GENERATION`. -/
structure SimpleState where
  revokedTokens : List String
  revokedDevices : List String
  currentGeneration : Nat
deriving DecidableEq

/-- `simple_api.py::bump_generation`: increment the generation counter. -/
def bump_generation (st : SimpleState) : SimpleState :=
  { st with currentGeneration := st.currentGeneration + 1 }

/-- The fields of a backward-compatible base64 token document read by the
legacy branch of `simple_api.py::verify_token`. -/
structure TokenData where
  device : String
  ageOver : Nat
  generation : Nat
  iat : Nat
  exp : Nat
deriving DecidableEq

/-- A token as presented to `simple_api.py::verify_token`: the raw string,
the result of `jwt.decode` on it (`none` models `InvalidTokenError`), and
the result of `json.loads(base64.b64decode(raw))` (`none` models a raised
decode error). -/
structure PresentedToken where
  raw : String
  jwtPayload : Option String
  b64Json : Option TokenData
deriving DecidableEq

/-- Result of `simple_api.py::verify_token`. -/
inductive SimpleResult where
  | validJwt (payload : String)
  | validLegacy (device : String) (ageOver : Nat) (iat : Nat) (exp : Nat)
  | invalid (err : String)
deriving DecidableEq

/-- `simple_api.py::verify_token`: reject raw strings present in
`REVOKED_TOKENS`; accept a decodable JWT; otherwise fall back to the
unsigned base64 JSON format, rejecting revoked devices (the check is skipped
for an empty device value, matching `if device_id and ...`), outdated
generations, and expired documents — with no cryptographic check at all on
that path. -/
def simple_verify_token (st : SimpleState) (now : Nat) (p : PresentedToken) : SimpleResult :=
  if p.raw ∈ st.revokedTokens then .invalid "Token has been revoked"
  else
    match p.jwtPayload with
    | some payload => .validJwt payload
    | none =>
      match p.b64Json with
      | none => .invalid "decode error"
      | some td =>
        if td.device ≠ "" ∧ td.device ∈ st.revokedDevices then
          .invalid "Device has been revoked"
        else if td.generation < st.currentGeneration then
          .invalid "Token generation outdated"
        else if td.exp < now then .invalid "Token expired"
        else .validLegacy td.device td.ageOver td.iat td.exp

/-- Flip bit `b` of the byte at position `i` of a serialised token's payload
segment. -/
def flipPayloadBit (t : SerializedToken) (i b : Nat) : SerializedToken :=
  { t with payloadSeg := t.payloadSeg.set i ((t.payloadSeg.getD i 0) ^^^ (1 <<< b)) }

/-! ## Theorems -/

/-- C10: `_merkle_root` and `MerkleTree.root` base cases — the empty set of
revoked hashes yields the all-zero 32-byte sentinel (never an error), and a
single-element set yields the SHA-256 of that single leaf, the pairing loop
not running since its `len > 1` condition is false. -/
theorem merkle_base_cases :
    merkle_root [] = zeros32 ∧ (∀ h, merkle_root [h] = sha256 h) ∧
    mt_root [] = zeros32 ∧ (∀ s, mt_root [s] = sha256 (strBytes s)) := by
  refine ⟨rfl, fun h => rfl, rfl, fun s => rfl⟩

/-- C4: whenever the thumbprint read from the trust anchor differs from the
local issuer key's thumbprint, `verify.py::verify_token` rejects with the
key-integrity failure regardless of the presented token — verification fails
closed and never reaches the signature, expiry, or success paths. (The 403
API-key gate precedes it in the handler, so an authorised caller is
assumed.) -/
theorem trust_mismatch_rejects (ctx : VerifyCtx) (now key : Nat) (t : SerializedToken)
    (tp : List Nat) (hact : ctx.verifierActive = true)
    (hread : ctx.anchorThumbprint = some tp) (hne : tp ≠ ctx.localThumbprint) :
    verify_token_endpoint ctx now key t = .error .trustIntegrityFailure := by
  simp [verify_token_endpoint, verify_thumbprint_integrity, hact, hread, hne]

/-- C4, witness: a concrete context whose anchor publishes `[1]` while the
local thumbprint is `[2]` rejects a perfectly valid token with the
trust-integrity failure. -/
theorem trust_mismatch_rejects_witness :
    ([1] : List Nat) ≠ [2] ∧
    verify_token_endpoint ⟨true, some [1], [2], []⟩ 50 5 (encode 5 ⟨18, [97], 0, 100⟩)
      = .error .trustIntegrityFailure :=
  ⟨by decide, trust_mismatch_rejects ⟨true, some [1], [2], []⟩ 50 5
    (encode 5 ⟨18, [97], 0, 100⟩) [1] rfl rfl (by decide)⟩

/-- C9: the expiry boundary of `token.py::verify` is inclusive of `now` — a
token whose `exp` equals the current time is accepted with its payload, and
a token whose `exp` is one unit less than the current time is rejected with
the expired error. -/
theorem expiry_boundary_inclusive (now key : Nat) (t : SerializedToken) (c : JwtClaims)
    (hdec : decodeAndVerify key t = .ok c) :
    (c.exp = now → tokenVerify now key t = .valid c.ageOver c.device c.iat c.exp) ∧
    (c.exp + 1 = now → tokenVerify now key t = .invalid .expired) := by
  constructor
  · intro h
    simp only [tokenVerify, hdec]
    rw [if_neg (by omega)]
  · intro h
    simp only [tokenVerify, hdec]
    rw [if_pos (by omega)]

/-- C9, witness: a concrete token with `exp = 100` is accepted at
`now = 100` and rejected as expired at `now = 101`. -/
theorem expiry_boundary_inclusive_witness :
    decodeAndVerify 5 (encode 5 ⟨18, [97], 0, 100⟩) = .ok ⟨18, [97], 0, 100⟩ ∧
    tokenVerify 100 5 (encode 5 ⟨18, [97], 0, 100⟩) = .valid 18 [97] 0 100 ∧
    tokenVerify 101 5 (encode 5 ⟨18, [97], 0, 100⟩) = .invalid .expired := by
  have h : decodeAndVerify 5 (encode 5 ⟨18, [97], 0, 100⟩) = .ok ⟨18, [97], 0, 100⟩ := by
    decide
  exact ⟨h, (expiry_boundary_inclusive 100 5 _ _ h).1 rfl,
    (expiry_boundary_inclusive 101 5 _ _ h).2 rfl⟩

/-- C7: for the backward-compatible non-cryptographic format of
`simple_api.py`, acceptance requires `generation ≥ current_generation`;
after `bump_generation`, every document whose generation is at most the
pre-bump value is rejected, while a document accepted before the bump whose
generation is at least the new value is still accepted. -/
theorem generation_gate (st : SimpleState) (now : Nat) (p : PresentedToken)
    (td : TokenData) (hjwt : p.jwtPayload = none) (hb : p.b64Json = some td) :
    (∀ d a i e, simple_verify_token st now p = .validLegacy d a i e →
      st.currentGeneration ≤ td.generation) ∧
    (td.generation ≤ st.currentGeneration →
      ∀ d a i e, simple_verify_token (bump_generation st) now p ≠ .validLegacy d a i e) ∧
    (st.currentGeneration + 1 ≤ td.generation →
      simple_verify_token st now p = .validLegacy td.device td.ageOver td.iat td.exp →
      simple_verify_token (bump_generation st) now p
        = .validLegacy td.device td.ageOver td.iat td.exp) := by
  simp only [simple_verify_token, bump_generation, hjwt, hb]
  by_cases hraw : p.raw ∈ st.revokedTokens
  · simp [hraw]
  · simp only [if_neg hraw]
    by_cases hdev : td.device ≠ "" ∧ td.device ∈ st.revokedDevices
    · simp [hdev]
    · simp only [if_neg hdev]
      refine ⟨?_, ?_, ?_⟩
      · intro d a i e
        by_cases hgen : td.generation < st.currentGeneration
        · simp [hgen]
        · intro _; omega
      · intro hle d a i e
        rw [if_pos (by omega)]
        simp
      · intro hge hacc
        rw [if_neg (by omega)] at hacc ⊢
        exact hacc

/-- C7, witness: with the generation counter at 1, a generation-1 document
is accepted; after one bump it is rejected; a generation-2 document accepted
before the bump is still accepted after it. -/
theorem generation_gate_witness :
    (∀ d a i e, simple_verify_token ⟨[], [], 1⟩ 50 ⟨"t", none, some ⟨"dev", 18, 1, 0, 100⟩⟩
        = .validLegacy d a i e → 1 ≤ 1) ∧
    (∀ d a i e, simple_verify_token (bump_generation ⟨[], [], 1⟩) 50
        ⟨"t", none, some ⟨"dev", 18, 1, 0, 100⟩⟩ ≠ .validLegacy d a i e) ∧
    simple_verify_token (bump_generation ⟨[], [], 1⟩) 50
        ⟨"u", none, some ⟨"dev", 18, 2, 0, 100⟩⟩ = .validLegacy "dev" 18 0 100 := by
  refine ⟨(generation_gate ⟨[], [], 1⟩ 50 _ ⟨"dev", 18, 1, 0, 100⟩ rfl rfl).1,
    (generation_gate ⟨[], [], 1⟩ 50 _ ⟨"dev", 18, 1, 0, 100⟩ rfl rfl).2.1 (by decide),
    (generation_gate ⟨[], [], 1⟩ 50 _ ⟨"dev", 18, 2, 0, 100⟩ rfl rfl).2.2 (by decide)
      (by decide)⟩

/-- C5, counterexample: the claim omits the `REVOKED_TOKENS` pre-check of
`simple_api.py::verify_token`. A document meeting all three stated
conditions (generation 1 ≥ current generation 1, device not in the revoked
device set, `exp = 100 >` current time 50) whose serialised token string —
here written `"tok"`, standing for the base64 encoding of the document — is
in `REVOKED_TOKENS` is rejected, not accepted. -/
theorem legacy_revoked_string_cex :
    1 ≤ 1 ∧ ("dev" ∉ ([] : List String)) ∧ 50 < 100 ∧
    simple_verify_token ⟨["tok"], [], 1⟩ 50 ⟨"tok", none, some ⟨"dev", 18, 1, 0, 100⟩⟩
      = .invalid "Token has been revoked" := by
  refine ⟨le_refl 1, by decide, by decide, by decide⟩

/-- C5, amended: when JWT decoding fails, the unsigned base64 fallback of
`simple_api.py::verify_token` accepts any document whose generation is at
least the current generation, whose device is not in the revoked-device set,
and whose `exp` exceeds the current time — with no cryptographic signature
check anywhere on that path — provided additionally that the presented
token string is not in the revoked-token set. -/
theorem legacy_b64_accepted_unsigned (st : SimpleState) (now : Nat) (p : PresentedToken)
    (td : TokenData) (hraw : p.raw ∉ st.revokedTokens) (hjwt : p.jwtPayload = none)
    (hb : p.b64Json = some td) (hdev : td.device ∉ st.revokedDevices)
    (hgen : st.currentGeneration ≤ td.generation) (hexp : now < td.exp) :
    simple_verify_token st now p = .validLegacy td.device td.ageOver td.iat td.exp := by
  simp only [simple_verify_token, hjwt, hb, if_neg hraw]
  rw [if_neg (fun h => hdev h.2), if_neg (by omega), if_neg (by omega)]

/-- C5, witness: a concrete unsigned document accepted by the fallback path
with no signature material anywhere in sight. -/
theorem legacy_b64_accepted_unsigned_witness :
    ("tok" ∉ (["other"] : List String)) ∧ ("dev" ∉ (["bad"] : List String)) ∧
    1 ≤ 1 ∧ 50 < 100 ∧
    simple_verify_token ⟨["other"], ["bad"], 1⟩ 50 ⟨"tok", none, some ⟨"dev", 18, 1, 0, 100⟩⟩
      = .validLegacy "dev" 18 0 100 :=
  ⟨by decide, by decide, le_refl 1, by decide,
    legacy_b64_accepted_unsigned ⟨["other"], ["bad"], 1⟩ 50
      ⟨"tok", none, some ⟨"dev", 18, 1, 0, 100⟩⟩ ⟨"dev", 18, 1, 0, 100⟩
      (by decide) rfl rfl (by decide) (le_refl 1) (by decide)⟩

/-- C1, counterexample: `verify.py::verify_token` never consults the
`Revoked` table. With the revocation row `"aa"` — standing for the SHA-256
hex of the presented token, the value `revoke_token` would store —
`check_revocation_status` reports the token revoked, yet the verify endpoint
still accepts that token: acceptance is not equivalent to the claim's four
conditions, and adding the token's hash does not move the endpoint from
ACCEPT to REJECT(Revoked). -/
theorem no_revocation_check_cex :
    is_revoked ⟨true, some [7], [7], ["aa"]⟩ "aa" = true ∧
    verify_token_endpoint ⟨true, some [7], [7], ["aa"]⟩ 50 5 (encode 5 ⟨18, [97], 0, 100⟩)
      = .ok ⟨18, [97], 0, 100⟩ := by
  constructor
  · decide
  · decide

/-- C1, amended: `verify.py::verify_token` accepts a token iff exactly three
conditions hold — the API key names an active verifier, the anchor-published
thumbprint equals the local one, the signature verifies and the token is
unexpired (`now ≤ exp`). It performs no revocation check: inserting any hash
into the `Revoked` table changes `check_revocation_status` for that hash but
leaves the result of every `verify_token` call unchanged. -/
theorem verify_token_endpoint_spec :
    (∀ (ctx : VerifyCtx) (now key : Nat) (t : SerializedToken) (c : JwtClaims),
      verify_token_endpoint ctx now key t = .ok c ↔
        ctx.verifierActive = true ∧ verify_thumbprint_integrity ctx = true ∧
        decodeAndVerify key t = .ok c ∧ now ≤ c.exp) ∧
    (∀ (ctx : VerifyCtx) (s : String) (now key : Nat) (t : SerializedToken),
      is_revoked (add_revoked ctx s) s = true ∧
      verify_token_endpoint (add_revoked ctx s) now key t
        = verify_token_endpoint ctx now key t) := by
  constructor
  · intro ctx now key t c
    cases hact : ctx.verifierActive
    · simp [verify_token_endpoint, hact]
    · cases hth : verify_thumbprint_integrity ctx
      · simp [verify_token_endpoint, hact, hth]
      · simp only [verify_token_endpoint, hact, hth, Bool.not_true, Bool.false_eq_true,
          if_false]
        cases hdec : decodeAndVerify key t with
        | malformed => simp
        | sigInvalid => simp
        | ok c' =>
          show (if c'.exp < now then EndpointResult.error .expiredToken
            else EndpointResult.ok c') = .ok c ↔ _
          by_cases hlt : c'.exp < now
          · rw [if_pos hlt]
            constructor
            · intro h
              exact absurd h (by simp)
            · rintro ⟨-, -, hc, hle⟩
              injection hc with h2
              subst h2
              exact absurd hle (by omega)
          · rw [if_neg hlt]
            constructor
            · intro h
              injection h with h2
              subst h2
              exact ⟨trivial, trivial, rfl, by omega⟩
            · rintro ⟨-, -, hc, -⟩
              injection hc with h2
              subst h2
              rfl
  · intro ctx s now key t
    constructor
    · simp [is_revoked, add_revoked]
    · simp [verify_token_endpoint, verify_thumbprint_integrity, add_revoked]

/-- C2, counterexample: the `MerkleTree` used by the revoke-token endpoint
does not sort — it builds over the `Revoked` rows in insertion order — so
the two insertion orders of the same two-hash set produce different roots. -/
theorem mt_root_order_dependent_cex :
    (["a", "b"] : List String).Perm ["b", "a"] ∧ mt_root ["a", "b"] ≠ mt_root ["b", "a"] := by
  constructor
  · exact List.Perm.swap "b" "a" []
  · decide

/-- C2, amended: the sorted root computation of
`jobs.py::update_revocation_root` (`_merkle_root(sorted(leaves))`) is
insertion-order independent — any two permutations of the same leaves give
byte-identical roots — while the `MerkleTree` built by
`revocation.py::revoke_token` hashes the rows in insertion order and is
order-dependent (see the counterexample). -/
theorem update_root_perm_invariant (l1 l2 : List (List Nat)) (hp : l1.Perm l2) :
    update_root l1 = update_root l2 := by
  unfold update_root
  congr 1
  exact List.eq_of_perm_of_sorted
    (((List.perm_insertionSort _ l1).trans hp).trans (List.perm_insertionSort _ l2).symm)
    (List.sorted_insertionSort _ l1) (List.sorted_insertionSort _ l2)

/-- C2, witness: the two orders of a concrete two-leaf set give the same
sorted root. -/
theorem update_root_perm_invariant_witness :
    ([[1], [2]] : List (List Nat)).Perm [[2], [1]] ∧
    update_root [[1], [2]] = update_root [[2], [1]] :=
  ⟨List.Perm.swap [2] [1] [], update_root_perm_invariant _ _ (List.Perm.swap [2] [1] [])⟩

/-- C6, counterexample: `revoke_token` inserts a `Revoked` row
unconditionally (`token_hash` carries no uniqueness constraint), so adding
the same hash twice leaves two rows, and the Merkle root computed over the
duplicated row list differs from the single-add root — the second add is
not effect-free. -/
theorem revoke_twice_changes_root_cex :
    (add_revoked (add_revoked ⟨true, some [7], [7], []⟩ "a") "a").revokedHashes = ["a", "a"] ∧
    mt_root ["a", "a"] ≠ mt_root ["a"] := by
  constructor
  · rfl
  · decide

/-- C6, amended: a second `add` of the same hash changes neither any
`is_revoked` answer nor membership, but it appends a second row to the
`Revoked` table rather than leaving the set unchanged — and the Merkle root
computed over the duplicated rows differs from the single-add root (the
counterexample exhibits this concretely). -/
theorem add_revoked_twice (ctx : VerifyCtx) (h : String) :
    (∀ s, is_revoked (add_revoked (add_revoked ctx h) h) s
      = is_revoked (add_revoked ctx h) s) ∧
    (add_revoked (add_revoked ctx h) h).revokedHashes = ctx.revokedHashes ++ [h] ++ [h] := by
  constructor
  · intro s
    simp only [is_revoked, add_revoked, List.append_assoc, List.mem_append,
      List.mem_singleton, decide_eq_decide]
    tauto
  · simp [add_revoked]

/-! ### Codec lemmas -/

/-- Alphabet characters are never the padding byte. -/
theorem encChar_ne_pad : ∀ v : Nat, v < 64 → encChar v ≠ 61 := by decide

/-- Translate-then-lookup inverts `encChar` on every 6-bit value. -/
theorem stdDecChar_encChar : ∀ v : Nat, v < 64 →
    stdDecChar (urlsafeTranslate (encChar v)) = some v := by decide

/-- A successful alphabet lookup yields a 6-bit value. -/
theorem stdDecChar_lt (c v : Nat) (h : stdDecChar c = some v) : v < 64 := by
  unfold stdDecChar at h
  split_ifs at h with h1 h2 h3 h4 h5
  · simp only [Bool.and_eq_true, decide_eq_true_eq] at h1
    injection h with hv
    omega
  · simp only [Bool.and_eq_true, decide_eq_true_eq] at h2
    injection h with hv
    omega
  · simp only [Bool.and_eq_true, decide_eq_true_eq] at h3
    injection h with hv
    omega
  · injection h with hv
    omega
  · injection h with hv
    omega

/-- Processing one canonical quad from quad position 0 emits its three bytes
and continues with a fresh quad. -/
theorem a2bAux_quad (v0 v1 v2 v3 : Nat) (rest : List Nat)
    (h0 : v0 < 64) (h1 : v1 < 64) (h2 : v2 < 64) (h3 : v3 < 64) :
    a2bAux (encChar v0 :: encChar v1 :: encChar v2 :: encChar v3 :: rest) 0 0 0
      = (a2bAux rest 0 0 0).map
          (fun tail => (v0 * 4 + v1 / 16) :: (v1 % 16 * 16 + v2 / 4) :: (v2 % 4 * 64 + v3) :: tail) := by
  simp [a2bAux, if_neg (encChar_ne_pad v0 h0), if_neg (encChar_ne_pad v1 h1),
    if_neg (encChar_ne_pad v2 h2), if_neg (encChar_ne_pad v3 h3),
    stdDecChar_encChar v0 h0, stdDecChar_encChar v1 h1,
    stdDecChar_encChar v2 h2, stdDecChar_encChar v3 h3, Option.map_map]
  rfl

/-- The lenient decoder inverts the canonical encoder once the padding
`base64url_decode` appends is attached. -/
theorem a2bAux_enc : ∀ bs : List Nat, (∀ x ∈ bs, x < 256) →
    a2bAux (b64urlEncode bs ++ b64pad bs) 0 0 0 = some bs
  | [], _ => rfl
  | [a], h => by
    have ha : a < 256 := h a (by simp)
    have e0 : a / 4 < 64 := by omega
    have e1 : a % 4 * 16 < 64 := by omega
    simp [b64urlEncode, b64pad, a2bAux, if_neg (encChar_ne_pad _ e0),
      if_neg (encChar_ne_pad _ e1), stdDecChar_encChar _ e0, stdDecChar_encChar _ e1]
    omega
  | [a, b], h => by
    have ha : a < 256 := h a (by simp)
    have hb : b < 256 := h b (by simp)
    have e0 : a / 4 < 64 := by omega
    have e1 : a % 4 * 16 + b / 16 < 64 := by omega
    have e2 : b % 16 * 4 < 64 := by omega
    simp [b64urlEncode, b64pad, a2bAux, if_neg (encChar_ne_pad _ e0),
      if_neg (encChar_ne_pad _ e1), if_neg (encChar_ne_pad _ e2),
      stdDecChar_encChar _ e0, stdDecChar_encChar _ e1, stdDecChar_encChar _ e2]
    omega
  | a :: b :: c :: rest, h => by
    have ha : a < 256 := h a (by simp)
    have hb : b < 256 := h b (by simp)
    have hc : c < 256 := h c (by simp)
    have ih := a2bAux_enc rest (fun x hx => h x (by simp [hx]))
    have hq := a2bAux_quad (a / 4) (a % 4 * 16 + b / 16) (b % 16 * 4 + c / 64) (c % 64)
      (b64urlEncode rest ++ b64pad rest) (by omega) (by omega) (by omega) (by omega)
    simp only [b64urlEncode, b64pad, List.cons_append, List.append_assoc]
    rw [hq, ih]
    simp only [Option.map_some']
    have r1 : a / 4 * 4 + (a % 4 * 16 + b / 16) / 16 = a := by omega
    have r2 : (a % 4 * 16 + b / 16) % 16 * 16 + (b % 16 * 4 + c / 64) / 4 = b := by omega
    have r3 : (b % 16 * 4 + c / 64) % 4 * 64 + c % 64 = c := by omega
    rw [r1, r2, r3]

/-- The encoder output's length mod 4 determines the padding the decoder
wrapper appends, and it is exactly `b64pad`. -/
theorem enc_pad_cases : ∀ bs : List Nat,
    ((b64urlEncode bs).length % 4 = 0 ∧ b64pad bs = []) ∨
    ((b64urlEncode bs).length % 4 = 2 ∧ b64pad bs = [61, 61]) ∨
    ((b64urlEncode bs).length % 4 = 3 ∧ b64pad bs = [61])
  | [] => Or.inl ⟨rfl, rfl⟩
  | [_] => Or.inr (Or.inl ⟨rfl, rfl⟩)
  | [_, _] => Or.inr (Or.inr ⟨rfl, rfl⟩)
  | a :: b :: c :: rest => by
    have hlen : (b64urlEncode (a :: b :: c :: rest)).length = (b64urlEncode rest).length + 4 := by
      simp [b64urlEncode]
    rcases enc_pad_cases rest with ⟨h1, h2⟩ | ⟨h1, h2⟩ | ⟨h1, h2⟩
    · exact Or.inl ⟨by rw [hlen]; omega, by simpa [b64pad] using h2⟩
    · exact Or.inr (Or.inl ⟨by rw [hlen]; omega, by simpa [b64pad] using h2⟩)
    · exact Or.inr (Or.inr ⟨by rw [hlen]; omega, by simpa [b64pad] using h2⟩)

/-- Base64url decoding inverts encoding on byte strings. -/
theorem b64_roundtrip (bs : List Nat) (h : ∀ x ∈ bs, x < 256) :
    b64urlDecode (b64urlEncode bs) = some bs := by
  have hcore := a2bAux_enc bs h
  unfold b64urlDecode
  rcases enc_pad_cases bs with ⟨h1, h2⟩ | ⟨h1, h2⟩ | ⟨h1, h2⟩
  · rw [if_neg (by omega), if_neg (by omega), if_pos h1]
    rw [h2, List.append_nil] at hcore
    exact hcore
  · rw [if_pos h1]
    rw [h2] at hcore
    exact hcore
  · rw [if_neg (by omega), if_pos h1]
    rw [h2] at hcore
    exact hcore

/-- Every byte the lenient decoder emits is below 256, given the in-range
state invariant on the pending bits. -/
theorem a2bAux_lt : ∀ (s : List Nat) (qp acc pads : Nat) (out : List Nat),
    qp < 4 → (qp = 1 → acc < 64) → (qp = 2 → acc < 16) → (qp = 3 → acc < 4) →
    a2bAux s qp acc pads = some out → ∀ x ∈ out, x < 256
  | [], qp, acc, pads, out => by
    intro _ _ _ _ hdec x hx
    unfold a2bAux at hdec
    split_ifs at hdec
    injection hdec with h'
    subst h'
    simp at hx
  | ch :: rest, qp, acc, pads, out => by
    intro hqp h1 h2 h3 hdec x hx
    unfold a2bAux at hdec
    by_cases hpad : ch = 61
    · rw [if_pos hpad] at hdec
      by_cases hq2 : 2 ≤ qp
      · rw [if_pos hq2] at hdec
        by_cases hq4 : 4 ≤ qp + (pads + 1)
        · rw [if_pos hq4] at hdec
          injection hdec with h'
          subst h'
          simp at hx
        · rw [if_neg hq4] at hdec
          exact a2bAux_lt rest qp acc (pads + 1) out hqp h1 h2 h3 hdec x hx
      · rw [if_neg hq2] at hdec
        exact a2bAux_lt rest qp acc pads out hqp h1 h2 h3 hdec x hx
    · rw [if_neg hpad] at hdec
      rcases hsd : stdDecChar (urlsafeTranslate ch) with _ | v
      · simp only [hsd] at hdec
        exact a2bAux_lt rest qp acc pads out hqp h1 h2 h3 hdec x hx
      · simp only [hsd] at hdec
        have hv := stdDecChar_lt _ _ hsd
        by_cases hq0 : qp = 0
        · rw [if_pos hq0] at hdec
          exact a2bAux_lt rest 1 v 0 out (by omega) (fun _ => hv) (by omega) (by omega)
            hdec x hx
        · rw [if_neg hq0] at hdec
          by_cases hq1 : qp = 1
          · rw [if_pos hq1] at hdec
            rcases ht : a2bAux rest 2 (v % 16) 0 with _ | tail
            · rw [ht] at hdec
              exact absurd hdec (by simp)
            · rw [ht] at hdec
              simp only [Option.map_some'] at hdec
              injection hdec with h'
              subst h'
              rcases List.mem_cons.1 hx with rfl | hx'
              · have := h1 hq1
                omega
              · exact a2bAux_lt rest 2 (v % 16) 0 tail (by omega) (by omega)
                  (fun _ => by omega) (by omega) ht x hx'
          · rw [if_neg hq1] at hdec
            by_cases hq2 : qp = 2
            · rw [if_pos hq2] at hdec
              rcases ht : a2bAux rest 3 (v % 4) 0 with _ | tail
              · rw [ht] at hdec
                exact absurd hdec (by simp)
              · rw [ht] at hdec
                simp only [Option.map_some'] at hdec
                injection hdec with h'
                subst h'
                rcases List.mem_cons.1 hx with rfl | hx'
                · have := h2 hq2
                  omega
                · exact a2bAux_lt rest 3 (v % 4) 0 tail (by omega) (by omega) (by omega)
                    (fun _ => by omega) ht x hx'
            · rw [if_neg hq2] at hdec
              rcases ht : a2bAux rest 0 0 0 with _ | tail
              · rw [ht] at hdec
                exact absurd hdec (by simp)
              · rw [ht] at hdec
                simp only [Option.map_some'] at hdec
                injection hdec with h'
                subst h'
                rcases List.mem_cons.1 hx with rfl | hx'
                · have := h3 (by omega)
                  omega
                · exact a2bAux_lt rest 0 0 0 tail (by omega) (by omega) (by omega) (by omega)
                    ht x hx'

/-- Every byte a decoded segment holds is below 256. -/
theorem b64urlDecode_lt (s l : List Nat) (h : b64urlDecode s = some l) :
    ∀ x ∈ l, x < 256 := by
  unfold b64urlDecode at h
  split_ifs at h
  · exact a2bAux_lt _ 0 0 0 l (by omega) (by omega) (by omega) (by omega) h
  · exact a2bAux_lt _ 0 0 0 l (by omega) (by omega) (by omega) (by omega) h
  · exact a2bAux_lt _ 0 0 0 l (by omega) (by omega) (by omega) (by omega) h

/-- The canonical encoder is injective on byte strings. -/
theorem b64urlEncode_inj (l1 l2 : List Nat) (h1 : ∀ x ∈ l1, x < 256)
    (h2 : ∀ x ∈ l2, x < 256) (he : b64urlEncode l1 = b64urlEncode l2) : l1 = l2 := by
  have r1 := b64_roundtrip l1 h1
  have r2 := b64_roundtrip l2 h2
  rw [he, r2] at r1
  injection r1 with h'
  exact h'.symm

/-- The fuelled digit function agrees with `Nat.digits` in base 10. -/
theorem natDigitsAux_eq_digits : ∀ fuel n : Nat, n ≤ fuel → natDigitsAux fuel n = Nat.digits 10 n
  | 0, 0, _ => by simp [natDigitsAux]
  | 0, _ + 1, h => absurd h (by omega)
  | _ + 1, 0, _ => by simp [natDigitsAux]
  | fuel + 1, n + 1, h => by
    simp only [natDigitsAux]
    rw [natDigitsAux_eq_digits fuel ((n + 1) / 10) (by omega),
      Nat.digits_def' (by norm_num : (1 : Nat) < 10) (Nat.succ_pos n)]

theorem natDigits_eq (n : Nat) : natDigits n = Nat.digits 10 n :=
  natDigitsAux_eq_digits n n le_rfl

/-- Rendered digit bytes lie in the ASCII digit range. -/
theorem natBytes_digit (n : Nat) : ∀ x ∈ natBytes n, 48 ≤ x ∧ x ≤ 57 := by
  intro x hx
  unfold natBytes at hx
  split at hx
  · simp at hx
    omega
  · rw [natDigits, natDigitsAux_eq_digits n n le_rfl] at hx
    simp only [List.mem_reverse, List.mem_map] at hx
    obtain ⟨d, hd, rfl⟩ := hx
    have := Nat.digits_lt_base (by norm_num) hd
    omega

theorem natBytes_ne_nil (n : Nat) : natBytes n ≠ [] := by
  unfold natBytes
  split
  · simp
  · rename_i h
    rw [natDigits, natDigitsAux_eq_digits n n le_rfl]
    simp [Nat.digits_eq_nil_iff_eq_zero, h]

/-- The numeric value of a rendered digit string is the number itself. -/
theorem digitsVal_natBytes (n : Nat) : digitsVal (natBytes n) = n := by
  unfold digitsVal natBytes
  split
  · rename_i h
    subst h
    decide
  · rw [natDigits, natDigitsAux_eq_digits n n le_rfl]
    rw [List.map_reverse, List.reverse_reverse, List.map_map]
    rw [show ((fun x => x - 48) ∘ fun x => x + 48) = id from funext fun d => by simp]
    rw [List.map_id]
    exact Nat.ofDigits_digits 10 n

/-- A maximal digit run splits a digit string from a non-digit remainder. -/
theorem takeDigits_append (ds rest : List Nat) (hds : ∀ d ∈ ds, isDigitByte d = true)
    (hrest : isDigitByte (rest.headD 0) = false) :
    takeDigits (ds ++ rest) = (ds, rest) := by
  induction ds with
  | nil =>
    cases rest with
    | nil => rfl
    | cons r rs =>
      simp only [List.headD_cons] at hrest
      simp [takeDigits, hrest]
  | cons d ds ih =>
    have hd := hds d (by simp)
    simp only [List.cons_append, takeDigits, hd, if_true, List.append_eq]
    rw [ih (fun x hx => hds x (by simp [hx]))]

/-- Parsing a rendered number followed by a non-digit remainder returns the
number and the remainder. -/
theorem parseNat_natBytes (n : Nat) (rest : List Nat)
    (hrest : isDigitByte (rest.headD 0) = false) :
    parseNat (natBytes n ++ rest) = some (n, rest) := by
  unfold parseNat
  rw [takeDigits_append (natBytes n) rest
    (fun d hd => by
      have := natBytes_digit n d hd
      simp only [isDigitByte, Bool.and_eq_true, decide_eq_true_eq]
      omega)
    hrest]
  rcases hnb : natBytes n with _ | ⟨x, xs⟩
  · exact absurd hnb (natBytes_ne_nil n)
  · have hv := digitsVal_natBytes n
    rw [hnb] at hv
    show some (digitsVal (x :: xs), rest) = some (n, rest)
    rw [hv]

/-- Scanning for the closing quote splits a quote-free string from the
remainder after the quote. -/
theorem takeTillQuote_append : ∀ (dev rest : List Nat), 34 ∉ dev →
    takeTillQuote (dev ++ 34 :: rest) = some (dev, rest)
  | [], rest, _ => by simp [takeTillQuote]
  | d :: ds, rest, h => by
    have hd : ¬d = 34 := fun hh => h (by simp [hh])
    simp only [List.cons_append, takeTillQuote, if_neg hd, List.append_eq]
    rw [takeTillQuote_append ds rest (fun hh => h (by simp [hh]))]
    rfl

theorem stripLit_nil (s : List Nat) : stripLit [] s = some s := rfl

theorem stripLit_cons (x : Nat) (l s : List Nat) : stripLit (x :: l) (x :: s) = stripLit l s := by
  simp [stripLit]

theorem lit_open_eq :
    strBytes "\x7b\"ageOver\":" = [123, 34, 97, 103, 101, 79, 118, 101, 114, 34, 58] := by
  decide

theorem lit_device_eq :
    strBytes ",\"device\":\"" = [44, 34, 100, 101, 118, 105, 99, 101, 34, 58, 34] := by
  decide

theorem lit_quote_exp_eq :
    strBytes "\",\"exp\":" = [34, 44, 34, 101, 120, 112, 34, 58] := by decide

theorem lit_exp_eq : strBytes ",\"exp\":" = [44, 34, 101, 120, 112, 34, 58] := by decide

theorem lit_iat_eq : strBytes ",\"iat\":" = [44, 34, 105, 97, 116, 34, 58] := by decide

theorem lit_close_eq : strBytes "\x7d" = [125] := by decide

/-- Parsing inverts rendering of the claims JSON, for any claim set whose
device string is free of the quote character. -/
theorem parseClaims_renderClaims (c : JwtClaims) (hq : 34 ∉ c.device) :
    parseClaims (renderClaims c) = some c := by
  unfold parseClaims renderClaims
  rw [lit_open_eq, lit_device_eq, lit_quote_exp_eq, lit_exp_eq, lit_iat_eq, lit_close_eq]
  simp [List.cons_append, List.append_assoc, stripLit_cons, stripLit_nil,
    Option.some_bind, parseNat_natBytes, takeTillQuote_append, hq, isDigitByte]

theorem renderHeader_lt_256 (key : Nat) : ∀ x ∈ renderHeader key, x < 256 := by
  intro x hx
  unfold renderHeader at hx
  rcases List.mem_append.1 hx with h | h
  · rcases List.mem_append.1 h with h2 | h2
    · exact (by decide : ∀ y ∈ strBytes "\x7b\"alg\":\"EdDSA\",\"kid\":\"", y < 256) x h2
    · have := natBytes_digit key x h2
      omega
  · exact (by decide : ∀ y ∈ strBytes "\"\x7d", y < 256) x h

theorem renderClaims_lt_256 (c : JwtClaims) (hdev : ∀ x ∈ c.device, x < 256) :
    ∀ x ∈ renderClaims c, x < 256 := by
  intro x hx
  unfold renderClaims at hx
  rcases List.mem_append.1 hx with h | h
  rotate_left
  · exact (by decide : ∀ y ∈ strBytes "\x7d", y < 256) x h
  rcases List.mem_append.1 h with h | h
  rotate_left
  · have := natBytes_digit c.iat x h
    omega
  rcases List.mem_append.1 h with h | h
  rotate_left
  · exact (by decide : ∀ y ∈ strBytes ",\"iat\":", y < 256) x h
  rcases List.mem_append.1 h with h | h
  rotate_left
  · have := natBytes_digit c.exp x h
    omega
  rcases List.mem_append.1 h with h | h
  rotate_left
  · exact (by decide : ∀ y ∈ strBytes "\",\"exp\":", y < 256) x h
  rcases List.mem_append.1 h with h | h
  rotate_left
  · exact hdev x h
  rcases List.mem_append.1 h with h | h
  rotate_left
  · exact (by decide : ∀ y ∈ strBytes ",\"device\":\"", y < 256) x h
  rcases List.mem_append.1 h with h | h
  · exact (by decide : ∀ y ∈ strBytes "\x7b\"ageOver\":", y < 256) x h
  · have := natBytes_digit c.ageOver x h
    omega

/-- C3: the codec round-trip — decoding and signature-verifying the
serialised token produced by encoding a claim set under a key, with that
key, succeeds and returns exactly the claims. (The device string is assumed
printable ASCII without `"` or `\`, the range on which the unescaped JSON
rendering is faithful to `json.dumps`; issued device hashes are hex
strings.) -/
theorem decode_encode_roundtrip (key : Nat) (c : JwtClaims)
    (hdev : ∀ x ∈ c.device, x < 127 ∧ 32 ≤ x ∧ x ≠ 34 ∧ x ≠ 92) :
    decodeAndVerify key (encode key c) = .ok c := by
  have hq : 34 ∉ c.device := fun hm => ((hdev 34 hm).2.2.1) rfl
  have hhb : ∀ x ∈ renderHeader key, x < 256 := renderHeader_lt_256 key
  have hpb : ∀ x ∈ renderClaims c, x < 256 :=
    renderClaims_lt_256 c (fun x hx => by have := (hdev x hx).1; omega)
  simp [decodeAndVerify, encode, b64_roundtrip _ hhb, b64_roundtrip _ hpb,
    parseClaims_renderClaims c hq]

/-- C3, witness: a concrete claim set survives the round trip. -/
theorem decode_encode_roundtrip_witness :
    (∀ x ∈ ([97] : List Nat), x < 127 ∧ 32 ≤ x ∧ x ≠ 34 ∧ x ≠ 92) ∧
    decodeAndVerify 6 (encode 6 ⟨18, [97], 0, 100⟩) = .ok ⟨18, [97], 0, 100⟩ :=
  ⟨by decide, decode_encode_roundtrip 6 ⟨18, [97], 0, 100⟩ (by decide)⟩

/-- A successful decode names the decoded segments, pins the embedded
signature to the signing input rebuilt over their re-encodings, and parses
the payload to the returned claims. -/
theorem decode_ok_facts (key : Nat) (t : SerializedToken) (c : JwtClaims)
    (hdec : decodeAndVerify key t = .ok c) :
    ∃ dh dp, b64urlDecode t.headerSeg = some dh ∧ b64urlDecode t.payloadSeg = some dp ∧
      t.sig = SigVal.ed25519 key (signingInput (b64urlEncode dh) (b64urlEncode dp)) ∧
      parseClaims dp = some c := by
  unfold decodeAndVerify at hdec
  rcases hh : b64urlDecode t.headerSeg with _ | dh
  · simp [hh] at hdec
  · simp only [hh] at hdec
    rcases hp : b64urlDecode t.payloadSeg with _ | dp
    · simp [hp] at hdec
    · simp only [hp] at hdec
      by_cases hs : t.sig = SigVal.ed25519 key (signingInput (b64urlEncode dh) (b64urlEncode dp))
      · refine ⟨dh, dp, rfl, rfl, hs, ?_⟩
        rw [if_pos hs] at hdec
        rcases hpc : parseClaims dp with _ | c'
        · simp only [hpc] at hdec
          exact absurd hdec (by simp)
        · simp only [hpc] at hdec
          injection hdec with h'
          rw [h']
      · rw [if_neg hs] at hdec
        exact absurd hdec (by simp)

/-- C8, amended: flipping a single bit of a byte of the payload segment of
a token that verifies successfully yields a token on which
decode-and-verify fails with `Malformed` (the tampered segment no longer
decodes), fails with `SignatureInvalid` (the decoded payload bytes
changed), or — when the flip touches only bits the lenient decoder ignores,
such as the trailing bits of a final partial quad — is accepted returning
exactly the original claims. Tampering can never yield acceptance with
different claims. (The original claim's "always `SignatureInvalid`, never
succeeds" fails on both counts: see the counterexample.) -/
theorem flip_payload_trichotomy (key : Nat) (t : SerializedToken) (c : JwtClaims)
    (i b : Nat) (hi : i < t.payloadSeg.length) (hb : b < 8)
    (hdec : decodeAndVerify key t = .ok c) :
    decodeAndVerify key (flipPayloadBit t i b) = .ok c ∨
    decodeAndVerify key (flipPayloadBit t i b) = .sigInvalid ∨
    decodeAndVerify key (flipPayloadBit t i b) = .malformed := by
  obtain ⟨dh, dp, hh, hp, hsig, hparse⟩ := decode_ok_facts key t c hdec
  have hdp256 : ∀ x ∈ dp, x < 256 := b64urlDecode_lt _ _ hp
  unfold decodeAndVerify
  simp only [flipPayloadBit]
  rw [hh]
  rcases hp' : b64urlDecode (t.payloadSeg.set i (t.payloadSeg.getD i 0 ^^^ 1 <<< b))
    with _ | dp'
  · right
    right
    rfl
  · have hdp'256 : ∀ x ∈ dp', x < 256 := b64urlDecode_lt _ _ hp'
    by_cases hde : dp' = dp
    · left
      subst hde
      show (if t.sig = SigVal.ed25519 key
          (signingInput (b64urlEncode dh) (b64urlEncode dp')) then
          match parseClaims dp' with
          | some cc => DecodeResult.ok cc
          | none => DecodeResult.malformed
        else DecodeResult.sigInvalid) = DecodeResult.ok c
      rw [if_pos hsig, hparse]
    · right
      left
      have hc : ¬t.sig = SigVal.ed25519 key
          (signingInput (b64urlEncode dh) (b64urlEncode dp')) := by
        intro hcon
        have heq := hsig.symm.trans hcon
        injection heq with _ hmsg
        unfold signingInput at hmsg
        have h46 := List.append_cancel_left hmsg
        injection h46 with _ htail
        exact hde (b64urlEncode_inj dp' dp hdp'256 hdp256 htail.symm)
      show (if t.sig = SigVal.ed25519 key
          (signingInput (b64urlEncode dh) (b64urlEncode dp')) then
          match parseClaims dp' with
          | some cc => DecodeResult.ok cc
          | none => DecodeResult.malformed
        else DecodeResult.sigInvalid) = DecodeResult.sigInvalid
      rw [if_neg hc]

/-- C8, counterexample: a payload bit-flip of a valid token can be accepted
outright. This token's claims JSON is 46 bytes, 1 mod 3, so its payload
segment ends in a two-character quantum whose final character `Q` carries
four bits the decoder discards; flipping bit 1 (`Q` to `S`, position 61)
leaves the decoded payload identical, `jwcrypto` rebuilds the very signing
input that was signed, and verification succeeds — not `SignatureInvalid`,
and certainly not "never succeeds". -/
theorem flip_payload_bit_accepted_cex :
    decodeAndVerify 5 (encode 5 ⟨18, [97, 98], 0, 100⟩) = .ok ⟨18, [97, 98], 0, 100⟩ ∧
    decodeAndVerify 5 (flipPayloadBit (encode 5 ⟨18, [97, 98], 0, 100⟩) 61 1)
      = .ok ⟨18, [97, 98], 0, 100⟩ := by
  constructor
  · decide
  · decide

/-- C8, witness: a concrete data-changing bit-flip lands in the rejected
disjuncts of the trichotomy. -/
theorem flip_payload_trichotomy_witness :
    0 < (encode 5 ⟨18, [97], 0, 100⟩).payloadSeg.length ∧ (0 : Nat) < 8 ∧
    decodeAndVerify 5 (encode 5 ⟨18, [97], 0, 100⟩) = .ok ⟨18, [97], 0, 100⟩ ∧
    (decodeAndVerify 5 (flipPayloadBit (encode 5 ⟨18, [97], 0, 100⟩) 0 0) = .ok ⟨18, [97], 0, 100⟩ ∨
     decodeAndVerify 5 (flipPayloadBit (encode 5 ⟨18, [97], 0, 100⟩) 0 0) = .sigInvalid ∨
     decodeAndVerify 5 (flipPayloadBit (encode 5 ⟨18, [97], 0, 100⟩) 0 0) = .malformed) := by
  have hd : decodeAndVerify 5 (encode 5 ⟨18, [97], 0, 100⟩) = .ok ⟨18, [97], 0, 100⟩ := by
    decide
  exact ⟨by decide, by decide, hd,
    flip_payload_trichotomy 5 _ _ 0 0 (by decide) (by decide) hd⟩

end BlockVerify
